import Mathlib

/-!
Shallow embedding of the testable core of the Web Server Launcher
repository: the recent-projects store (`src/utils/project_manager.py`),
the file utilities (`src/utils/file_utils.py`) and the server-start
control path of the main window (`src/ui/main_window.py`).

Conventions of the embedding:
* The filesystem is a snapshot `String → PathKind` telling, for every
  path, whether it names nothing, a regular file, or a directory.
* Python `dict` values are insertion-ordered association lists; assigning
  to an existing key updates the entry in place, assigning to a fresh key
  appends it, `del` removes it.
* Python `sorted(..., key=lambda x: x[1], reverse=True)` is a stable sort
  placing larger counts first; it is embedded as `List.insertionSort`
  with the relation "the right count is at most the left count", which
  inserts each element before the first element whose count does not
  exceed it — the same stable descending order.
* Python `list.sort()` on strings is a lexicographic sort by code point,
  embedded as `List.insertionSort` over a code-point comparison on the
  underlying character lists (the built-in `String` order of Lean does
  not reduce in the kernel, so the comparison is spelled out).
* `json.load` either fails (file absent, unreadable, or not JSON) or
  produces a parsed JSON value; the persisted file is modelled as the
  parse outcome, since the store only ever observes it through `json`.
* The socket bind probe of `is_port_available` is an oracle
  `Int → Bool`, and spawning the server thread is recorded in the
  window state rather than performed.
-/

namespace WebLauncher

/-- What a filesystem path names: nothing, a regular file, or a
directory. -/
inductive PathKind : Type where
  | absent : PathKind
  | file : PathKind
  | dir : PathKind
deriving DecidableEq

/-- A filesystem snapshot. -/
abbrev FileSystem := String → PathKind

/-- Models `os.path.exists(p)`: true for files and directories alike. -/
def osPathExists (fs : FileSystem) (p : String) : Bool :=
  fs p ≠ PathKind.absent

/-- Models `os.path.isdir(p)`. -/
def osPathIsDir (fs : FileSystem) (p : String) : Bool :=
  fs p = PathKind.dir

/-- Parsed JSON values, as returned by the Python `json.load`. -/
inductive JsonVal : Type where
  | obj : List (String × JsonVal) → JsonVal
  | arr : List JsonVal → JsonVal
  | str : String → JsonVal
  | num : Int → JsonVal
  | boolean : Bool → JsonVal
  | null : JsonVal

/-- The observable condition of the persisted recent-projects file:
absent, present but unreadable, present but not syntactically valid
JSON, or holding a JSON document that parses to `v`. -/
inductive StoredFile : Type where
  | missing : StoredFile
  | unreadable : StoredFile
  | invalidJson : StoredFile
  | json : JsonVal → StoredFile

/-- Embeds `ProjectManager.load_recent_projects`: if the file exists and
`json.load` succeeds, whatever value it parsed is returned unchanged;
every failure (missing file, unreadable file, malformed JSON) falls
through to the empty dict `{}`. -/
def load_recent_projects : StoredFile → JsonVal
  | StoredFile.missing => JsonVal.obj []
  | StoredFile.unreadable => JsonVal.obj []
  | StoredFile.invalidJson => JsonVal.obj []
  | StoredFile.json v => v

/-- The predicate described by the specification words "valid
serialized mapping of path strings to integer counts": a JSON object
whose values are all integers. -/
def isStrIntMapping : JsonVal → Bool
  | JsonVal.obj entries => entries.all (fun kv =>
      match kv.2 with
      | JsonVal.num _ => true
      | _ => false)
  | _ => false

/-- State of a `ProjectManager`: the in-memory dict `recent_projects`
(an insertion-ordered association list), the persisted file, and a
counter of completed writes to that file (so "the file was rewritten"
is observable even when the rewritten content coincides). -/
structure ProjectManager : Type where
  recent_projects : List (String × Int)
  file : StoredFile
  saves : Nat

/-- The JSON document `json.dump` writes for a given mapping. -/
def serializeProjects (m : List (String × Int)) : JsonVal :=
  JsonVal.obj (m.map (fun e => (e.1, JsonVal.num e.2)))

/-- Embeds `ProjectManager.save_recent_projects`: writes the current
mapping to the persisted file. -/
def save_recent_projects (st : ProjectManager) : ProjectManager :=
  { st with
    file := StoredFile.json (serializeProjects st.recent_projects)
    saves := st.saves + 1 }

/-- Embeds `ProjectManager.add_recent_project`: if `folder_path` is a
key of the dict its count is incremented in place, otherwise a fresh
entry with count 1 is appended; then the mapping is saved. -/
def add_recent_project (st : ProjectManager) (folder_path : String) :
    ProjectManager :=
  let m :=
    if st.recent_projects.any (fun e => e.1 == folder_path) then
      st.recent_projects.map (fun e =>
        if e.1 = folder_path then (e.1, e.2 + 1) else e)
    else
      st.recent_projects ++ [(folder_path, 1)]
  save_recent_projects { st with recent_projects := m }

/-- Embeds `sorted(self.recent_projects.items(), key=lambda x: x[1],
reverse=True)`: stable sort, larger counts first. -/
def sortByCountDesc (l : List (String × Int)) : List (String × Int) :=
  l.insertionSort (fun a b => b.2 ≤ a.2)

/-- Embeds `del d[k]` on a dict with key `k`: the (unique) entry with
that key is removed, order of the rest preserved. -/
def delKey (k : String) (m : List (String × Int)) : List (String × Int) :=
  m.filter (fun e => e.1 ≠ k)

/-- One iteration of the loop in `get_sorted_projects`: an existing
path is appended to the `valid_projects` accumulator, a non-existing
one is deleted from the mapping. -/
def gspStep (fs : FileSystem) (acc : List (String × Int) × List (String × Int))
    (e : String × Int) : List (String × Int) × List (String × Int) :=
  if osPathExists fs e.1 then (acc.1 ++ [e], acc.2)
  else (acc.1, delKey e.1 acc.2)

/-- Embeds `ProjectManager.get_sorted_projects`: sorts the mapping by
count descending, walks the first `max_count` sorted entries keeping
the existing ones and deleting the rest from the mapping, saves exactly
when the kept list is shorter than the examined slice, and returns the
kept list together with the updated manager state. -/
def get_sorted_projects (fs : FileSystem) (st : ProjectManager)
    (max_count : Nat) : List (String × Int) × ProjectManager :=
  let sorted_projects := sortByCountDesc st.recent_projects
  let slice := sorted_projects.take max_count
  let folded := slice.foldl (gspStep fs) ([], st.recent_projects)
  let valid_projects := folded.1
  let st1 := { st with recent_projects := folded.2 }
  let st2 :=
    if valid_projects.length ≠ slice.length then save_recent_projects st1
    else st1
  (valid_projects, st2)

/-- Embeds `ProjectManager.clear_recent_projects`: empties the mapping
and saves. -/
def clear_recent_projects (st : ProjectManager) : ProjectManager :=
  save_recent_projects { st with recent_projects := [] }

/-- Dict lookup: value of the first (with unique keys, the only) entry
whose key is `k`. -/
def lookupCount : List (String × Int) → String → Option Int
  | [], _ => none
  | e :: m, k => if e.1 = k then some e.2 else lookupCount m k

/-- Keys of the mapping are pairwise distinct — the dict invariant. -/
def keysUnique (m : List (String × Int)) : Prop :=
  (m.map Prod.fst).Nodup

instance (m : List (String × Int)) : Decidable (keysUnique m) := by
  unfold keysUnique; infer_instance

/-- Embeds `FileUtils.validate_folder`. -/
def validate_folder (fs : FileSystem) (folder_path : String) :
    Bool × String :=
  if osPathExists fs folder_path = false then
    (false, "Selected folder does not exist")
  else if osPathIsDir fs folder_path = false then
    (false, "Selected path is not a directory")
  else (true, "Folder is valid")

/-- One entry of `os.listdir`: its name and whether it is a
subdirectory. -/
structure DirEntry : Type where
  name : String
  isDir : Bool
deriving DecidableEq

/-- Code-point lexicographic order on code-point lists — the order
Python uses to compare strings. -/
def listLeNat : List Nat → List Nat → Bool
  | [], _ => true
  | _ :: _, [] => false
  | x :: xs, y :: ys =>
    if x < y then true else if y < x then false else listLeNat xs ys

/-- Code-point lexicographic order on strings (Python `<=` on `str`). -/
def strLeB (a b : String) : Bool :=
  listLeNat (a.data.map Char.toNat) (b.data.map Char.toNat)

/-- ASCII case folding of one code point — what `str.lower()` does on
the ASCII filenames at issue. -/
def lowerN (n : Nat) : Nat :=
  if 65 ≤ n ∧ n ≤ 90 then n + 32 else n

/-- Code points of `s.lower()`. -/
def lowerData (s : String) : List Nat :=
  s.data.map (fun c => lowerN c.toNat)

/-- Embeds `item.lower().endswith((html, htm))`, the HTML-suffix test
of the fallback scan. -/
def htmlLike (item : String) : Bool :=
  (lowerData ".html").isSuffixOf (lowerData item) ||
    (lowerData ".htm").isSuffixOf (lowerData item)

/-- Embeds `html_files.sort()`: ascending lexicographic sort. -/
def sortStr (l : List String) : List String :=
  l.insertionSort (fun a b => strLeB a b = true)

/-- The fixed priority list of conventional index filenames. -/
def index_files : List String :=
  ["index.html", "index.htm", "default.html", "home.html"]

/-- Embeds `FileUtils.find_index_file` on a directory whose `listdir`
yields `entries`: first conventional name present in the directory
(`os.path.exists` on the joined path, so a subdirectory of that name
also counts), else the alphabetically first HTML-like entry name, else
nothing. -/
def find_index_file (entries : List DirEntry) : Option String :=
  match index_files.find? (fun f => entries.any (fun e => e.name == f)) with
  | some f => some f
  | none =>
    let html_files := (entries.map DirEntry.name).filter htmlLike
    match sortStr html_files with
    | [] => none
    | first :: _ => some first

/-- Embeds `FileUtils.is_port_available`: the socket bind probe is an
oracle. -/
def is_port_available (port_free : Int → Bool) (port : Int) : Bool :=
  port_free port

/-- The fields of `WebServerLauncher` that `start_server` reads or
writes: the selected directory (`""` when none is selected, as in
`__init__`), the last started port, the worker thread (`none` when no
thread object is held; `some (d, p)` a thread serving `d` on `p`), and
the enabled state of the three buttons. -/
structure MainWindow : Type where
  serve_directory : String
  server_port : Int
  server_thread : Option (String × Int)
  start_enabled : Bool
  stop_enabled : Bool
  open_enabled : Bool
deriving DecidableEq

/-- How a call to `start_server` concludes: one of the three early
returns behind a message box, or a successful thread start. -/
inductive StartOutcome : Type where
  | warnSelectFolder : StartOutcome
  | errFolderMissing : StartOutcome
  | errPortInUse : StartOutcome
  | started : StartOutcome
deriving DecidableEq

/-- Embeds `WebServerLauncher.start_server`: warn when no folder is
selected, error when the selected path does not exist, error when the
port probe fails; otherwise record the port, start the server thread
and flip the three buttons. Note the existence check is
`os.path.exists`, not `os.path.isdir`. -/
def start_server (fs : FileSystem) (port_free : Int → Bool)
    (spin_port : Int) (w : MainWindow) : StartOutcome × MainWindow :=
  if w.serve_directory == "" then (StartOutcome.warnSelectFolder, w)
  else if osPathExists fs w.serve_directory = false then
    (StartOutcome.errFolderMissing, w)
  else if is_port_available port_free spin_port = false then
    (StartOutcome.errPortInUse, w)
  else
    let w1 := { w with server_port := spin_port }
    let w2 := { w1 with server_thread := some (w1.serve_directory, w1.server_port) }
    (StartOutcome.started,
      { w2 with start_enabled := false, stop_enabled := true, open_enabled := true })

/-- An empty store whose persisted file is absent — the state of a
fresh installation. -/
def emptyStore : ProjectManager :=
  { recent_projects := [], file := StoredFile.missing, saves := 0 }

/-- A filesystem on which every path is a directory. -/
def fsAllDirs : FileSystem := fun _ => PathKind.dir

/-- A port probe on which every port is free. -/
def allPortsFree : Int → Bool := fun _ => true

/-- A filesystem on which no path exists. -/
def fsNone : FileSystem := fun _ => PathKind.absent

/-- A filesystem where `/srv/page` is a regular file and nothing else
exists. -/
def fsRegFile : FileSystem :=
  fun p => if p = "/srv/page" then PathKind.file else PathKind.absent

/-- A window whose selected directory is the regular file
`/srv/page`, in the idle UI state. -/
def wRegFile : MainWindow :=
  { serve_directory := "/srv/page", server_port := 8000,
    server_thread := none, start_enabled := true, stop_enabled := false,
    open_enabled := false }

/-- A window whose selected directory is the nonexistent path
`/gone`. -/
def wGone : MainWindow := { wRegFile with serve_directory := "/gone" }

/-- A filesystem where `/b` does not exist but every other path is a
directory. -/
def fsMissingB : FileSystem :=
  fun p => if p = "/b" then PathKind.absent else PathKind.dir

/-- A store holding `/a` (count 2) and `/b` (count 1). -/
def stAB : ProjectManager :=
  { recent_projects := [("/a", 2), ("/b", 1)], file := StoredFile.missing,
    saves := 0 }

/-- A filesystem where `/gone` does not exist but every other path is a
directory. -/
def fsTopMissing : FileSystem :=
  fun p => if p = "/gone" then PathKind.absent else PathKind.dir

/-- A store whose highest-count entry `/gone` no longer exists on disk,
followed by two entries that do exist. -/
def stTopMissing : ProjectManager :=
  { recent_projects := [("/gone", 5), ("/a", 3), ("/b", 1)],
    file := StoredFile.missing, saves := 0 }

/-- The store obtained from an empty store by adding `/a` three times
and then `/b` once. -/
def storeAAAB : ProjectManager :=
  add_recent_project
    (add_recent_project
      (add_recent_project (add_recent_project emptyStore "/a") "/a") "/a")
    "/b"

/-- The directory listing holding only the files `about.html` and
`zzz.htm`. -/
def entriesAboutZzz : List DirEntry :=
  [⟨"about.html", false⟩, ⟨"zzz.htm", false⟩]

/-- A directory listing holding the file `zzz.htm` and a subdirectory
named `aaa.html`. -/
def entriesDirAaa : List DirEntry :=
  [⟨"zzz.htm", false⟩, ⟨"aaa.html", true⟩]

/-! ### Helper lemmas about the embedded operations -/

theorem sortByCountDesc_perm (l : List (String × Int)) :
    (sortByCountDesc l).Perm l :=
  List.perm_insertionSort _ l

theorem sortByCountDesc_sorted (l : List (String × Int)) :
    List.Sorted (fun a b : String × Int => b.2 ≤ a.2) (sortByCountDesc l) := by
  haveI : IsTotal (String × Int) (fun a b => b.2 ≤ a.2) :=
    ⟨fun a b => le_total b.2 a.2⟩
  haveI : IsTrans (String × Int) (fun a b => b.2 ≤ a.2) :=
    ⟨fun _ _ _ h1 h2 => le_trans h2 h1⟩
  exact List.sorted_insertionSort _ l

theorem gspFoldFst (fs : FileSystem) :
    ∀ (slice v m : List (String × Int)),
      (slice.foldl (gspStep fs) (v, m)).1 =
        v ++ slice.filter (fun e => osPathExists fs e.1) := by
  intro slice
  induction slice with
  | nil => intro v m; simp
  | cons x xs ih =>
    intro v m
    cases h : osPathExists fs x.1 with
    | true =>
      rw [List.foldl_cons]
      have hstep : gspStep fs (v, m) x = (v ++ [x], m) := by simp [gspStep, h]
      rw [hstep, ih]
      simp [List.filter_cons, h]
    | false =>
      rw [List.foldl_cons]
      have hstep : gspStep fs (v, m) x = (v, delKey x.1 m) := by
        simp [gspStep, h]
      rw [hstep, ih]
      simp [List.filter_cons, h]

theorem gspFoldSnd (fs : FileSystem) :
    ∀ (slice v m : List (String × Int)),
      (slice.foldl (gspStep fs) (v, m)).2 =
        m.filter (fun e =>
          !(slice.any (fun x => !osPathExists fs x.1 && e.1 == x.1))) := by
  intro slice
  induction slice with
  | nil => intro v m; simp
  | cons x xs ih =>
    intro v m
    cases h : osPathExists fs x.1 with
    | true =>
      rw [List.foldl_cons]
      have hstep : gspStep fs (v, m) x = (v ++ [x], m) := by simp [gspStep, h]
      rw [hstep, ih]
      apply List.filter_congr
      intro e _
      simp [h]
    | false =>
      rw [List.foldl_cons]
      have hstep : gspStep fs (v, m) x = (v, delKey x.1 m) := by
        simp [gspStep, h]
      rw [hstep, ih, delKey, List.filter_filter]
      apply List.filter_congr
      intro e _
      by_cases he : e.1 = x.1
      · simp [he, h]
      · simp [he, h]

theorem filterLengthEq {α : Type} (p : α → Bool) (l : List α) :
    (l.filter p).length = l.length ↔ ∀ a ∈ l, p a = true := by
  constructor
  · intro h
    exact List.filter_eq_self.mp
      (List.Sublist.eq_of_length (List.filter_sublist l) h)
  · intro h
    rw [List.filter_eq_self.mpr h]

theorem saveCond (fs : FileSystem) (slice : List (String × Int)) :
    ((slice.filter (fun e => osPathExists fs e.1)).length ≠ slice.length) ↔
      slice.any (fun e => !osPathExists fs e.1) = true := by
  rw [Ne, filterLengthEq]
  simp only [List.any_eq_true, Bool.not_eq_true']
  push_neg
  constructor
  · rintro ⟨a, ha, hna⟩
    exact ⟨a, ha, by simpa using hna⟩
  · rintro ⟨a, ha, hna⟩
    exact ⟨a, ha, by simpa using hna⟩

theorem get_sorted_fst (fs : FileSystem) (st : ProjectManager) (n : Nat) :
    (get_sorted_projects fs st n).1 =
      ((sortByCountDesc st.recent_projects).take n).filter
        (fun e => osPathExists fs e.1) := by
  simp only [get_sorted_projects]
  rw [gspFoldFst]
  simp

theorem get_sorted_mapping (fs : FileSystem) (st : ProjectManager) (n : Nat) :
    (get_sorted_projects fs st n).2.recent_projects =
      st.recent_projects.filter (fun e =>
        !(((sortByCountDesc st.recent_projects).take n).any
          (fun x => !osPathExists fs x.1 && e.1 == x.1))) := by
  simp only [get_sorted_projects]
  split <;> simp [save_recent_projects, gspFoldSnd]

theorem lookupCount_mem {k : String} {c : Int} :
    ∀ {m : List (String × Int)}, lookupCount m k = some c → (k, c) ∈ m := by
  intro m
  induction m with
  | nil => intro h; exact absurd h (by simp [lookupCount])
  | cons e rest ih =>
    intro h
    by_cases he : e.1 = k
    · simp only [lookupCount, if_pos he] at h
      injection h with h2
      subst he
      subst h2
      simp
    · simp only [lookupCount, if_neg he] at h
      exact List.mem_cons_of_mem _ (ih h)

theorem keysUnique_val {k : String} {c c' : Int} :
    ∀ {m : List (String × Int)},
      keysUnique m → (k, c) ∈ m → (k, c') ∈ m → c = c' := by
  intro m
  induction m with
  | nil => intro _ h; cases h
  | cons e rest ih =>
    intro hu h1 h2
    have hu2 : (e.1 ∉ rest.map Prod.fst) ∧ keysUnique rest := by
      simpa [keysUnique, List.nodup_cons] using hu
    rcases List.mem_cons.mp h1 with h1 | h1 <;>
      rcases List.mem_cons.mp h2 with h2 | h2
    · rw [← h1] at h2; exact congrArg Prod.snd h2.symm
    · exfalso
      apply hu2.1
      have hk1 : e.1 = k := by rw [← h1]
      rw [hk1]
      simpa using List.mem_map_of_mem Prod.fst h2
    · exfalso
      apply hu2.1
      have hk1 : e.1 = k := by rw [← h2]
      rw [hk1]
      simpa using List.mem_map_of_mem Prod.fst h1
    · exact ih hu2.2 h1 h2

theorem lookupCount_bump_self (p : String) :
    ∀ m : List (String × Int),
      lookupCount (m.map (fun e => if e.1 = p then (e.1, e.2 + 1) else e)) p =
        Option.map (fun c => c + 1) (lookupCount m p) := by
  intro m
  induction m with
  | nil => simp [lookupCount]
  | cons e rest ih =>
    by_cases he : e.1 = p
    · simp [lookupCount, he, ih]
    · simp [lookupCount, he, ih]

theorem lookupCount_bump_other (p k : String) (hk : k ≠ p) :
    ∀ m : List (String × Int),
      lookupCount (m.map (fun e => if e.1 = p then (e.1, e.2 + 1) else e)) k =
        lookupCount m k := by
  intro m
  induction m with
  | nil => simp [lookupCount]
  | cons e rest ih =>
    by_cases he : e.1 = p
    · have hek : ¬ e.1 = k := by rw [he]; exact fun hh => hk hh.symm
      have hpk : ¬ p = k := fun hh => hk hh.symm
      simp [lookupCount, he, hek, hpk, ih]
    · by_cases hek : e.1 = k
      · simp [lookupCount, he, hek, hk]
      · simp [lookupCount, he, hek, ih]

theorem lookupCount_append (k : String) :
    ∀ m m2 : List (String × Int),
      lookupCount (m ++ m2) k =
        (match lookupCount m k with
         | some c => some c
         | none => lookupCount m2 k) := by
  intro m
  induction m with
  | nil => intro m2; simp [lookupCount]
  | cons e rest ih =>
    intro m2
    by_cases he : e.1 = k
    · simp [lookupCount, he]
    · simp [lookupCount, he, ih]

theorem lookupCount_none_of_any_false (p : String) :
    ∀ m : List (String × Int),
      m.any (fun e => e.1 == p) = false → lookupCount m p = none := by
  intro m
  induction m with
  | nil => intro _; rfl
  | cons e rest ih =>
    intro h
    simp only [List.any_cons, Bool.or_eq_false_iff] at h
    have he : ¬ e.1 = p := by simpa using h.1
    simp [lookupCount, he, ih h.2]

theorem lookupCount_some_of_any_true (p : String) :
    ∀ m : List (String × Int),
      m.any (fun e => e.1 == p) = true → ∃ c, lookupCount m p = some c := by
  intro m
  induction m with
  | nil => intro h; cases h
  | cons e rest ih =>
    intro h
    by_cases he : e.1 = p
    · exact ⟨e.2, by simp [lookupCount, he]⟩
    · simp only [List.any_cons, Bool.or_eq_true_iff] at h
      rcases h with h | h
      · exact absurd (by simpa using h) he
      · obtain ⟨c, hc⟩ := ih h
        exact ⟨c, by simp [lookupCount, he, hc]⟩

theorem map_fst_bump (p : String) (m : List (String × Int)) :
    (m.map (fun e => if e.1 = p then (e.1, e.2 + 1) else e)).map Prod.fst =
      m.map Prod.fst := by
  rw [List.map_map]
  apply List.map_congr_left
  intro e _
  by_cases he : e.1 = p <;> simp [he]

theorem listLeNat_refl : ∀ a : List Nat, listLeNat a a = true := by
  intro a
  induction a with
  | nil => rfl
  | cons x xs ih => simp [listLeNat, ih]

theorem listLeNat_total :
    ∀ a b : List Nat, listLeNat a b = true ∨ listLeNat b a = true := by
  intro a
  induction a with
  | nil => intro b; left; rfl
  | cons x xs ih =>
    intro b
    cases b with
    | nil => right; rfl
    | cons y ys =>
      rcases lt_trichotomy x y with h | h | h
      · left; simp [listLeNat, h]
      · subst h
        rcases ih ys with h2 | h2
        · left; simp [listLeNat, h2]
        · right; simp [listLeNat, h2]
      · right; simp [listLeNat, h]

theorem listLeNat_trans :
    ∀ a b c : List Nat, listLeNat a b = true → listLeNat b c = true →
      listLeNat a c = true := by
  intro a
  induction a with
  | nil => intro b c _ _; rfl
  | cons x xs ih =>
    intro b c h1 h2
    cases b with
    | nil => simp [listLeNat] at h1
    | cons y ys =>
      cases c with
      | nil => simp [listLeNat] at h2
      | cons z zs =>
        rcases lt_trichotomy x y with hxy | hxy | hxy <;>
          rcases lt_trichotomy y z with hyz | hyz | hyz
        · simp [listLeNat, lt_trans hxy hyz]
        · subst hyz; simp [listLeNat, hxy]
        · simp [listLeNat, hyz, asymm hyz] at h2
        · subst hxy; simp [listLeNat, hyz]
        · subst hxy; subst hyz
          simp only [listLeNat, lt_irrefl, if_false] at h1 h2 ⊢
          exact ih ys zs h1 h2
        · subst hxy; simp [listLeNat, hyz, asymm hyz] at h2
        · simp [listLeNat, hxy, asymm hxy] at h1
        · simp [listLeNat, hxy, asymm hxy] at h1
        · simp [listLeNat, hxy, asymm hxy] at h1

theorem strLeB_refl (a : String) : strLeB a a = true :=
  listLeNat_refl _

theorem strLeB_total (a b : String) :
    strLeB a b = true ∨ strLeB b a = true :=
  listLeNat_total _ _

theorem strLeB_trans {a b c : String} (h1 : strLeB a b = true)
    (h2 : strLeB b c = true) : strLeB a c = true :=
  listLeNat_trans _ _ _ h1 h2

theorem sortStr_perm (l : List String) : (sortStr l).Perm l :=
  List.perm_insertionSort _ l

theorem sortStr_sorted (l : List String) :
    List.Sorted (fun a b => strLeB a b = true) (sortStr l) := by
  haveI : IsTotal String (fun a b => strLeB a b = true) :=
    ⟨fun a b => strLeB_total a b⟩
  haveI : IsTrans String (fun a b => strLeB a b = true) :=
    ⟨fun _ _ _ h1 h2 => strLeB_trans h1 h2⟩
  exact List.sorted_insertionSort _ l

/-! ### Claim theorems -/

/-- C1, counterexample: the claim that after a `get_sorted_projects`
call the in-memory mapping contains no entry whose path is missing on
disk fails. With mapping `/a ↦ 2, /b ↦ 1`, the path `/b` missing on
disk and `n = 1`, only the top-1 slice `[("/a", 2)]` is examined, so
the dead entry `("/b", 1)` survives the call (and the file is not
rewritten). -/
theorem C1_counterexample :
    osPathExists fsMissingB "/b" = false ∧
    ("/b", 1) ∈ (get_sorted_projects fsMissingB stAB 1).2.recent_projects ∧
    (get_sorted_projects fsMissingB stAB 1).2.saves = stAB.saves := by
  decide

/-- C2, counterexample: the claim that `start_server` rejects every
selected path that is not an existing directory fails for a path that
exists but is a regular file: `start_server` only checks
`os.path.exists`, so with `/srv/page` a regular file the call reports
success, records a spawned server thread, and mutates the button
state. -/
theorem C2_counterexample :
    osPathExists fsRegFile "/srv/page" = true ∧
    osPathIsDir fsRegFile "/srv/page" = false ∧
    (start_server fsRegFile allPortsFree 8080 wRegFile).1 =
      StartOutcome.started ∧
    (start_server fsRegFile allPortsFree 8080 wRegFile).2.server_thread =
      some ("/srv/page", 8080) ∧
    (start_server fsRegFile allPortsFree 8080 wRegFile).2 ≠ wRegFile := by
  decide

/-- C2, amended: `start_server` fails fast with the window state fully
unchanged (no thread spawned, no UI mutation) when no directory is
selected or the selected path does not exist on disk; a path that
exists but is not a directory is not rejected. -/
theorem C2_amended (fs : FileSystem) (port_free : Int → Bool) (port : Int)
    (w : MainWindow) :
    (w.serve_directory = "" →
      start_server fs port_free port w = (StartOutcome.warnSelectFolder, w)) ∧
    (w.serve_directory ≠ "" → osPathExists fs w.serve_directory = false →
      start_server fs port_free port w = (StartOutcome.errFolderMissing, w)) := by
  constructor
  · intro h
    simp [start_server, h]
  · intro h1 h2
    have hb : (w.serve_directory == "") = false := by simpa using h1
    simp [start_server, hb, h2]

/-- C2, witness: the amended statement applied to a window whose
selected path `/gone` does not exist. -/
theorem C2_witness :
    wGone.serve_directory ≠ "" ∧
    osPathExists fsNone wGone.serve_directory = false ∧
    start_server fsNone allPortsFree 8080 wGone =
      (StartOutcome.errFolderMissing, wGone) :=
  ⟨by decide, by decide,
    (C2_amended fsNone allPortsFree 8080 wGone).2 (by decide) (by decide)⟩

/-- C5, counterexample: the claim that every malformed persisted file
(anything that is not a serialized mapping of path strings to integer
counts) loads as the empty mapping fails: a file holding the valid JSON
document `[]` — not a mapping — is returned by `json.load` as-is, not
replaced by `{}`. -/
theorem C5_counterexample :
    isStrIntMapping (JsonVal.arr []) = false ∧
    load_recent_projects (StoredFile.json (JsonVal.arr [])) =
      JsonVal.arr [] ∧
    JsonVal.arr [] ≠ JsonVal.obj [] :=
  ⟨rfl, rfl, fun h => JsonVal.noConfusion h⟩

/-- C5, amended: a missing file, an unreadable file, or content that is
not syntactically valid JSON loads as the empty mapping and never
propagates an error; but content that is syntactically valid JSON is
returned exactly as parsed, with no check that it is a mapping of path
strings to integer counts. -/
theorem C5_amended :
    load_recent_projects StoredFile.missing = JsonVal.obj [] ∧
    load_recent_projects StoredFile.unreadable = JsonVal.obj [] ∧
    load_recent_projects StoredFile.invalidJson = JsonVal.obj [] ∧
    ∀ v : JsonVal, load_recent_projects (StoredFile.json v) = v :=
  ⟨rfl, rfl, rfl, fun _ => rfl⟩

/-- C7, confirmed: for every store state, `clear_recent_projects`
followed by `get_sorted_projects` with `max_count = 10` returns the
empty sequence, and after the clear the persisted file holds the empty
mapping. -/
theorem C7_clear_empties (st : ProjectManager) (fs : FileSystem) :
    (get_sorted_projects fs (clear_recent_projects st) 10).1 = [] ∧
    (clear_recent_projects st).file = StoredFile.json (JsonVal.obj []) ∧
    (clear_recent_projects st).recent_projects = [] :=
  ⟨rfl, rfl, rfl⟩

/-- C8, confirmed: `validate_folder` succeeds exactly when the path
exists and is a directory, and its two failure cases carry distinct
reasons — one for a path that does not exist, another for a path that
exists but is not a directory. -/
theorem C8_validate (fs : FileSystem) (p : String) :
    ((validate_folder fs p).1 = true ↔
      (osPathExists fs p = true ∧ osPathIsDir fs p = true)) ∧
    (fs p = PathKind.absent →
      validate_folder fs p = (false, "Selected folder does not exist")) ∧
    (fs p = PathKind.file →
      validate_folder fs p = (false, "Selected path is not a directory")) ∧
    "Selected folder does not exist" ≠ "Selected path is not a directory" := by
  refine ⟨?_, ?_, ?_, by decide⟩
  · cases h : fs p <;> simp [validate_folder, osPathExists, osPathIsDir, h]
  · intro h; simp [validate_folder, osPathExists, osPathIsDir, h]
  · intro h; simp [validate_folder, osPathExists, osPathIsDir, h]

/-- C8, witness: the theorem applied to the filesystem on which
`/srv/page` is a regular file. -/
theorem C8_witness :
    fsRegFile "/srv/page" = PathKind.file ∧
    validate_folder fsRegFile "/srv/page" =
      (false, "Selected path is not a directory") :=
  ⟨by decide, (C8_validate fsRegFile "/srv/page").2.2.1 (by decide)⟩

/-- C10, confirmed: there are store states with at least `n` entries
whose paths exist on disk for which `get_sorted_projects` returns fewer
than `n` entries. With `/gone ↦ 5` missing on disk and the existing
`/a ↦ 3`, `/b ↦ 1` below it, the top-1 slice holds only `/gone`, which
is dropped and not replaced by the next-ranked existing entry, so the
result is empty while `/a` and `/b` stay in the mapping. -/
theorem C10_truncated_topn :
    1 ≤ (stTopMissing.recent_projects.filter
        (fun e => osPathExists fsTopMissing e.1)).length ∧
    (get_sorted_projects fsTopMissing stTopMissing 1).1.length < 1 ∧
    (get_sorted_projects fsTopMissing stTopMissing 1).2.recent_projects =
      [("/a", 3), ("/b", 1)] := by
  decide

/-- C4, counterexample: the claim that the fallback scan returns the
lexicographically first *file* with an HTML-like extension fails:
`os.listdir` entries are not filtered by type, so on a directory whose
only HTML-like file is `zzz.htm` but which holds a subdirectory named
`aaa.html`, the subdirectory name is returned. -/
theorem C4_counterexample :
    find_index_file entriesDirAaa = some "aaa.html" ∧
    entriesDirAaa.filter (fun e => !e.isDir && htmlLike e.name) =
      [⟨"zzz.htm", false⟩] ∧
    ("aaa.html" : String) ≠ "zzz.htm" := by
  decide

/-- C3, confirmed: adding `/a` three times then `/b` once to an empty
store makes `get_sorted_projects` with `max_count = 10` return exactly
`[("/a", 3), ("/b", 1)]`; and in general the returned sequence holds at
most `n` entries and is sorted by count descending. -/
theorem C3_topn_order :
    (get_sorted_projects fsAllDirs storeAAAB 10).1 = [("/a", 3), ("/b", 1)] ∧
    ∀ (fs : FileSystem) (st : ProjectManager) (n : Nat),
      (get_sorted_projects fs st n).1.length ≤ n ∧
      List.Sorted (fun a b : String × Int => b.2 ≤ a.2)
        (get_sorted_projects fs st n).1 := by
  constructor
  · decide
  · intro fs st n
    constructor
    · rw [get_sorted_fst]
      calc ((((sortByCountDesc st.recent_projects).take n).filter
              (fun e => osPathExists fs e.1)).length)
          ≤ ((sortByCountDesc st.recent_projects).take n).length :=
            List.length_filter_le _ _
        _ ≤ n := by rw [List.length_take]; exact min_le_left _ _
    · rw [get_sorted_fst]
      exact List.Pairwise.sublist
        ((List.filter_sublist _).trans (List.take_sublist _ _))
        (sortByCountDesc_sorted st.recent_projects)

/-- C6, confirmed: for every store state and path, `add_recent_project`
sets the stored count of that path to its previous count plus one
(creating the entry at count 1 when absent), leaves the count of every
other key unchanged, and then persists the full mapping. -/
theorem C6_add_increments (st : ProjectManager) (p : String) :
    lookupCount (add_recent_project st p).recent_projects p =
      some ((match lookupCount st.recent_projects p with
             | some c => c
             | none => 0) + 1) ∧
    (∀ k, k ≠ p →
      lookupCount (add_recent_project st p).recent_projects k =
        lookupCount st.recent_projects k) ∧
    (add_recent_project st p).saves = st.saves + 1 ∧
    (add_recent_project st p).file =
      StoredFile.json
        (serializeProjects (add_recent_project st p).recent_projects) := by
  have hsav : (add_recent_project st p).saves = st.saves + 1 := by
    simp [add_recent_project, save_recent_projects]
  have hfile : (add_recent_project st p).file =
      StoredFile.json
        (serializeProjects (add_recent_project st p).recent_projects) := by
    simp [add_recent_project, save_recent_projects]
  refine ⟨?_, ?_, hsav, hfile⟩
  · cases h : st.recent_projects.any (fun e => e.1 == p) with
    | true =>
      have hmap : (add_recent_project st p).recent_projects =
          st.recent_projects.map
            (fun e => if e.1 = p then (e.1, e.2 + 1) else e) := by
        simp [add_recent_project, save_recent_projects, h]
      rw [hmap, lookupCount_bump_self]
      obtain ⟨c, hc⟩ := lookupCount_some_of_any_true p _ h
      rw [hc]
      rfl
    | false =>
      have hmap : (add_recent_project st p).recent_projects =
          st.recent_projects ++ [(p, 1)] := by
        simp [add_recent_project, save_recent_projects, h]
      rw [hmap, lookupCount_append, lookupCount_none_of_any_false p _ h]
      simp [lookupCount]
  · intro k hk
    cases h : st.recent_projects.any (fun e => e.1 == p) with
    | true =>
      have hmap : (add_recent_project st p).recent_projects =
          st.recent_projects.map
            (fun e => if e.1 = p then (e.1, e.2 + 1) else e) := by
        simp [add_recent_project, save_recent_projects, h]
      rw [hmap, lookupCount_bump_other p k hk]
    | false =>
      have hmap : (add_recent_project st p).recent_projects =
          st.recent_projects ++ [(p, 1)] := by
        simp [add_recent_project, save_recent_projects, h]
      rw [hmap, lookupCount_append]
      cases hm : lookupCount st.recent_projects k with
      | some c => rfl
      | none =>
        have hpk : ¬ p = k := fun hh => hk hh.symm
        simp [lookupCount, hpk]

/-- C6, witness: the second conjunct of the theorem applied to the
empty store, `p = "/a"` and `k = "/b"`. -/
theorem C6_witness :
    ("/b" : String) ≠ "/a" ∧
    lookupCount (add_recent_project emptyStore "/a").recent_projects "/b" =
      lookupCount emptyStore.recent_projects "/b" :=
  ⟨by decide, (C6_add_increments emptyStore "/a").2.1 "/b" (by decide)⟩

/-- C9, confirmed: on a store whose keys are unique, each operation
(`add_recent_project`, `get_sorted_projects`, `clear_recent_projects`)
preserves key uniqueness, and no operation decreases the stored count
of a key that remains present — a count only grows (`add`), the entry
is deleted outright (`get_sorted_projects` cleanup), or the whole store
is cleared. -/
theorem C9_invariants (st : ProjectManager) (p : String) (fs : FileSystem)
    (n : Nat) (hu : keysUnique st.recent_projects) :
    keysUnique (add_recent_project st p).recent_projects ∧
    keysUnique ((get_sorted_projects fs st n).2).recent_projects ∧
    keysUnique (clear_recent_projects st).recent_projects ∧
    (∀ k c c', lookupCount st.recent_projects k = some c →
      lookupCount (add_recent_project st p).recent_projects k = some c' →
      c ≤ c') ∧
    (∀ k c c', lookupCount st.recent_projects k = some c →
      lookupCount ((get_sorted_projects fs st n).2).recent_projects k =
        some c' →
      c ≤ c') ∧
    (clear_recent_projects st).recent_projects = [] := by
  refine ⟨?_, ?_, ?_, ?_, ?_, rfl⟩
  · cases h : st.recent_projects.any (fun e => e.1 == p) with
    | true =>
      have hmap : (add_recent_project st p).recent_projects =
          st.recent_projects.map
            (fun e => if e.1 = p then (e.1, e.2 + 1) else e) := by
        simp [add_recent_project, save_recent_projects, h]
      rw [keysUnique, hmap, map_fst_bump]
      exact hu
    | false =>
      have hmap : (add_recent_project st p).recent_projects =
          st.recent_projects ++ [(p, 1)] := by
        simp [add_recent_project, save_recent_projects, h]
      rw [keysUnique, hmap, List.map_append, List.nodup_append]
      refine ⟨hu, List.nodup_singleton p, ?_⟩
      intro a ha hb
      have hap : a = p := by simpa using hb
      subst hap
      obtain ⟨e, hem, hea⟩ := List.mem_map.mp ha
      have hno := List.any_eq_false.mp h e hem
      exact hno (by simp [hea])
  · rw [keysUnique, get_sorted_mapping]
    exact List.Nodup.sublist
      (List.Sublist.map Prod.fst (List.filter_sublist _)) hu
  · exact List.nodup_nil
  · intro k c c' h1 h2
    cases h : st.recent_projects.any (fun e => e.1 == p) with
    | true =>
      have hmap : (add_recent_project st p).recent_projects =
          st.recent_projects.map
            (fun e => if e.1 = p then (e.1, e.2 + 1) else e) := by
        simp [add_recent_project, save_recent_projects, h]
      by_cases hk : k = p
      · subst hk
        rw [hmap, lookupCount_bump_self, h1] at h2
        have : c + 1 = c' := by simpa using h2
        omega
      · rw [hmap, lookupCount_bump_other p k hk, h1] at h2
        have : c = c' := by simpa using h2
        omega
    | false =>
      have hmap : (add_recent_project st p).recent_projects =
          st.recent_projects ++ [(p, 1)] := by
        simp [add_recent_project, save_recent_projects, h]
      rw [hmap, lookupCount_append, h1] at h2
      have : c = c' := by simpa using h2
      omega
  · intro k c c' h1 h2
    have hm2 : (k, c') ∈ (get_sorted_projects fs st n).2.recent_projects :=
      lookupCount_mem h2
    rw [get_sorted_mapping] at hm2
    have hm2' : (k, c') ∈ st.recent_projects := (List.mem_filter.mp hm2).1
    have hm1 : (k, c) ∈ st.recent_projects := lookupCount_mem h1
    have : c = c' := keysUnique_val hu hm1 hm2'
    omega

/-- C9, witness: the uniqueness invariant instantiated on the concrete
store `stAB` with a fresh key. -/
theorem C9_witness :
    keysUnique stAB.recent_projects ∧
    keysUnique (add_recent_project stAB "/c").recent_projects :=
  ⟨by decide, (C9_invariants stAB "/c" fsAllDirs 10 (by decide)).1⟩

/-- C1, amended: after `get_sorted_projects` with bound `n`, no entry of
the examined top-`n` slice whose path is missing on disk remains in the
in-memory mapping (entries outside that slice are never examined), and
the persisted file is rewritten exactly when at least one slice entry
was dropped: on a drop the save counter increments and the file holds
the serialized cleaned mapping, otherwise file, counter and mapping are
all unchanged. -/
theorem C1_amended (fs : FileSystem) (st : ProjectManager) (n : Nat) :
    (∀ e ∈ (get_sorted_projects fs st n).2.recent_projects,
      e ∈ (sortByCountDesc st.recent_projects).take n →
      osPathExists fs e.1 = true) ∧
    (((sortByCountDesc st.recent_projects).take n).any
        (fun e => !osPathExists fs e.1) = true →
      (get_sorted_projects fs st n).2.saves = st.saves + 1 ∧
      (get_sorted_projects fs st n).2.file =
        StoredFile.json
          (serializeProjects (get_sorted_projects fs st n).2.recent_projects)) ∧
    (((sortByCountDesc st.recent_projects).take n).any
        (fun e => !osPathExists fs e.1) = false →
      (get_sorted_projects fs st n).2.saves = st.saves ∧
      (get_sorted_projects fs st n).2.file = st.file ∧
      (get_sorted_projects fs st n).2.recent_projects = st.recent_projects) := by
  refine ⟨?_, ?_, ?_⟩
  · intro e he hsl
    rw [get_sorted_mapping] at he
    have hpred := (List.mem_filter.mp he).2
    have hany : ((sortByCountDesc st.recent_projects).take n).any
        (fun x => !osPathExists fs x.1 && e.1 == x.1) = false := by
      simpa using hpred
    have hinst := List.any_eq_false.mp hany e hsl
    cases hx : osPathExists fs e.1 with
    | true => rfl
    | false => exact absurd (by simp [hx]) hinst
  · intro hany
    have hne : ((((sortByCountDesc st.recent_projects).take n).foldl
          (gspStep fs) ([], st.recent_projects)).1.length ≠
        ((sortByCountDesc st.recent_projects).take n).length) := by
      rw [gspFoldFst]
      simpa using
        (saveCond fs ((sortByCountDesc st.recent_projects).take n)).mpr hany
    constructor
    · show (get_sorted_projects fs st n).2.saves = st.saves + 1
      simp only [get_sorted_projects]
      rw [if_pos hne]
      rfl
    · show (get_sorted_projects fs st n).2.file =
        StoredFile.json
          (serializeProjects (get_sorted_projects fs st n).2.recent_projects)
      simp only [get_sorted_projects]
      rw [if_pos hne]
      simp [save_recent_projects]
  · intro hany
    have heq : ((((sortByCountDesc st.recent_projects).take n).foldl
          (gspStep fs) ([], st.recent_projects)).1.length =
        ((sortByCountDesc st.recent_projects).take n).length) := by
      rw [gspFoldFst]
      simp only [List.nil_append]
      by_contra hcon
      exact absurd ((saveCond fs _).mp hcon) (by simp [hany])
    have hmap_eq : (get_sorted_projects fs st n).2.recent_projects =
        st.recent_projects := by
      rw [get_sorted_mapping]
      apply List.filter_eq_self.mpr
      intro e _
      have hfalse : ((sortByCountDesc st.recent_projects).take n).any
          (fun x => !osPathExists fs x.1 && e.1 == x.1) = false := by
        apply List.any_eq_false.mpr
        intro x hx
        have hxe := List.any_eq_false.mp hany x hx
        have hxe' : osPathExists fs x.1 = true := by
          cases hxx : osPathExists fs x.1 with
          | true => rfl
          | false => exact absurd (by simp [hxx]) hxe
        simp [hxe']
      simp [hfalse]
    refine ⟨?_, ?_, hmap_eq⟩
    · show (get_sorted_projects fs st n).2.saves = st.saves
      simp only [get_sorted_projects]
      rw [if_neg (fun hcc => hcc heq)]
    · show (get_sorted_projects fs st n).2.file = st.file
      simp only [get_sorted_projects]
      rw [if_neg (fun hcc => hcc heq)]

/-- C1, witness: the amended statement applied to the store whose
top-count entry `/gone` is missing on disk, with `n = 1`: the slice
drop forces a rewrite of the persisted file. -/
theorem C1_witness :
    ((sortByCountDesc stTopMissing.recent_projects).take 1).any
        (fun e => !osPathExists fsTopMissing e.1) = true ∧
    (get_sorted_projects fsTopMissing stTopMissing 1).2.saves =
      stTopMissing.saves + 1 := by
  have h := (C1_amended fsTopMissing stTopMissing 1).2.1 (by decide)
  exact ⟨by decide, h.1⟩

/-- C4, amended: `find_index_file` checks the fixed priority list
`index.html`, `index.htm`, `default.html`, `home.html` in order and
returns the first name present in the directory; if none is present it
returns the lexicographically first directory *entry* (file or
subdirectory alike — the scan does not filter by type) whose name has
an HTML-like extension; with no candidate it returns nothing. On a
directory holding only the files `about.html` and `zzz.htm` it returns
`about.html`. -/
theorem C4_amended (entries : List DirEntry) :
    (∀ f, index_files.find? (fun f => entries.any (fun e => e.name == f)) =
        some f → find_index_file entries = some f) ∧
    (index_files.find? (fun f => entries.any (fun e => e.name == f)) = none →
      (((entries.map DirEntry.name).filter htmlLike = []) →
        find_index_file entries = none) ∧
      (∀ m, find_index_file entries = some m →
        htmlLike m = true ∧ m ∈ entries.map DirEntry.name ∧
        ∀ x ∈ entries.map DirEntry.name, htmlLike x = true →
          strLeB m x = true) ∧
      ((entries.map DirEntry.name).filter htmlLike ≠ [] →
        find_index_file entries ≠ none)) ∧
    find_index_file entriesAboutZzz = some "about.html" := by
  refine ⟨?_, ?_, by decide⟩
  · intro f hf
    simp only [find_index_file, hf]
  · intro hnone
    refine ⟨?_, ?_, ?_⟩
    · intro hemp
      simp only [find_index_file, hnone, hemp]
      rfl
    · intro m hm
      simp only [find_index_file, hnone] at hm
      cases hsort : sortStr ((entries.map DirEntry.name).filter htmlLike) with
      | nil =>
        simp only [hsort] at hm
        exact Option.noConfusion hm
      | cons first rest =>
        simp only [hsort] at hm
        have hfm : first = m := by injection hm
        subst hfm
        have hperm := sortStr_perm ((entries.map DirEntry.name).filter htmlLike)
        have hmem : first ∈ (entries.map DirEntry.name).filter htmlLike :=
          hperm.mem_iff.mp (by rw [hsort]; exact List.mem_cons_self _ _)
        refine ⟨(List.mem_filter.mp hmem).2, (List.mem_filter.mp hmem).1, ?_⟩
        intro x hx hhtml
        have hxs : x ∈ sortStr ((entries.map DirEntry.name).filter htmlLike) :=
          hperm.mem_iff.mpr (List.mem_filter.mpr ⟨hx, hhtml⟩)
        rw [hsort] at hxs
        rcases List.mem_cons.mp hxs with h | h
        · rw [h]; exact strLeB_refl _
        · have hsorted :=
            sortStr_sorted ((entries.map DirEntry.name).filter htmlLike)
          rw [hsort] at hsorted
          exact (List.sorted_cons.mp hsorted).1 x h
    · intro hne hcontra
      simp only [find_index_file, hnone] at hcontra
      cases hsort : sortStr ((entries.map DirEntry.name).filter htmlLike) with
      | nil =>
        have hperm := sortStr_perm ((entries.map DirEntry.name).filter htmlLike)
        rw [hsort] at hperm
        exact hne hperm.symm.eq_nil
      | cons first rest =>
        simp only [hsort] at hcontra
        exact Option.noConfusion hcontra

/-- C4, witness: the amended statement applied to the listing with only
`about.html` and `zzz.htm`: the returned `about.html` is HTML-like and
lexicographically at most `zzz.htm`. -/
theorem C4_witness :
    htmlLike "about.html" = true ∧ strLeB "about.html" "zzz.htm" = true := by
  have h := ((C4_amended entriesAboutZzz).2.1 (by decide)).2.1 "about.html"
    (by decide)
  exact ⟨h.1, h.2.2 "zzz.htm" (by decide) (by decide)⟩

end WebLauncher
